import Mathlib

/-!
Verification of the osrm-utils map-matching client
(`src/osrmutils/osrmutils.py`).

The development shallowly embeds the three functions of the module:

* `match` (the request formatter) — embedded as `OsrmUtils.matchRequest`,
  building the request string as a `List Char`;
* `_mapmatch_custom` (the single-window matcher) — embedded as
  `OsrmUtils.mapmatch_single`, consuming the decoded JSON response
  (`MatchResponse`) instead of performing the network call;
* `mapmatch_custom` (the chunked matcher) — embedded as
  `OsrmUtils.mapmatch_custom`, parameterised by an oracle giving the
  response of the network call of each window.

Numbers that Python treats as floats are modelled as exact rationals `ℚ`.
Fallible code (KeyError / IndexError / AssertionError / AttributeError)
is modelled in the `Except MatchError` monad.  Pandas dataframes are
modelled as lists of row structures; the left join of the route
reconciliation step is modelled abstractly (the spec places dataframe
library mechanics out of scope).
-/

set_option synthInstance.maxSize 512

namespace OsrmUtils

/-- Longitude/latitude pair as it appears in geojson coordinate arrays. -/
abbrev Coord := ℚ × ℚ

/-! ### Rounding (`round(i, 3)` of Python) -/

/-- Floor of a rational, computed from its normalised fraction
(`⌊q⌋ = q.num / q.den`, Euclidean integer division). -/
def ratFloor (q : ℚ) : ℤ := q.num / q.den

/-- Round-half-to-even on rationals; this is the rounding rule of the Python
built-in `round`. -/
def roundHalfEven (q : ℚ) : ℤ :=
  if q - (ratFloor q : ℚ) < 1/2 then ratFloor q
  else if 1/2 < q - (ratFloor q : ℚ) then ratFloor q + 1
  else if ratFloor q % 2 = 0 then ratFloor q else ratFloor q + 1

/-- Python `round(q, 3)`: round to 3 decimal places, ties to even. -/
def round3 (q : ℚ) : ℚ := ((roundHalfEven (q * 1000) : ℚ)) / 1000

/-! ### Response data model (documented OSRM response schema) -/

/-- One non-null entry of the tracepoints array of the response. -/
structure TracepointRec where
  matchings_index : ℕ
  waypoint_index : ℕ
  location : Coord
deriving DecidableEq

/-- One entry of the steps array of a leg: `geomType` models the nested
geometry type tag, `coordinates` models the nested geometry coordinate
array, `maneuverLocation` models the nested maneuver location. -/
structure Step where
  geomType : String
  coordinates : List Coord
  maneuverLocation : Coord
deriving DecidableEq

/-- One entry of the legs array of a route: `nodes` and `distance` model
the nested node-id and distance arrays of the leg metadata block. -/
structure Leg where
  nodes : List ℤ
  distance : List ℚ
  steps : List Step
deriving DecidableEq

/-- One entry of the matchings array of the response. -/
structure Matching where
  legs : List Leg
deriving DecidableEq

/-- The decoded JSON body returned by the match service. -/
structure MatchResponse where
  code : String
  tracepoints : List (Option TracepointRec)
  matchings : List Matching
deriving DecidableEq

/-! ### Output rows -/

/-- One row of the tracepoint dataframe `df_tp`. -/
structure TpRow where
  tp_idx : ℕ
  lon : ℚ
  lat : ℚ
  snap_lon : Option ℚ
  snap_lat : Option ℚ
  timestamp : Option ℤ
deriving DecidableEq

/-- One element of `l_rte` (a matched-leg row before the left join). -/
structure LegRow where
  from_tp : ℕ
  to_tp : ℕ
  route_idx : ℕ
  leg_idx : ℕ
  node_pairs : List (ℤ × ℤ)
  distances : List ℚ
  coords : List Coord
deriving DecidableEq

/-- One row of the final route dataframe `df_rte` (after the left join). -/
structure RteRow where
  from_tp : ℕ
  to_tp : ℕ
  matched : Bool
  route_idx : Option ℕ
  leg_idx : Option ℕ
  node_pairs : List (ℤ × ℤ)
  distances : List ℚ
  coords : List Coord
deriving DecidableEq

/-- The ways `_mapmatch_custom` can raise: the geometry-type assertion,
a missing dict key, an out-of-range list index, and use of a `None`
dataframe (AttributeError). -/
inductive MatchError where
  | assertGeom
  | keyError
  | indexError
  | noneType
deriving DecidableEq

instance {ε α : Type} [DecidableEq ε] [DecidableEq α] : DecidableEq (Except ε α) :=
  fun x y =>
    match x, y with
    | .ok a, .ok b =>
        if h : a = b then isTrue (by rw [h]) else isFalse (fun hh => h (Except.ok.inj hh))
    | .error a, .error b =>
        if h : a = b then isTrue (by rw [h]) else isFalse (fun hh => h (Except.error.inj hh))
    | .ok _, .error _ => isFalse (fun hh => Except.noConfusion hh)
    | .error _, .ok _ => isFalse (fun hh => Except.noConfusion hh)

/-! ### Coordinate deduplication -/

/-- Literal translation of the comprehension
`[coords[i] for i in range(len(coords)) if (i==0) or coords[i] != coords[i-1]]`. -/
def dedupConsec (l : List Coord) : List Coord :=
  (List.range l.length).filterMap (fun i =>
    if i = 0 ∨ l.get? i ≠ l.get? (i - 1) then l.get? i else none)

/-- Spec-side deduplication, tail worker: drop any element equal to its
immediate (original) predecessor `prev`. -/
def dedupGo (prev : Coord) : List Coord → List Coord
  | [] => []
  | y :: ys => if y = prev then dedupGo y ys else y :: dedupGo y ys

/-- Modelled from the spec: "deduplicating consecutive identical coordinate
pairs (keep index 0 unconditionally; drop any subsequent point equal to its
immediate predecessor)". -/
def dedupSpec : List Coord → List Coord
  | [] => []
  | x :: xs => x :: dedupGo x xs

/-! ### Tracepoint pass -/

/-- Insertion-order association list for the dict
`d_tracepoint_index[(route_idx, waypoint_idx)] = tracepoint_idx`,
starting at tracepoint index `i`. -/
def buildTpIndexGo : List (Option TracepointRec) → ℕ → List ((ℕ × ℕ) × ℕ)
  | [], _ => []
  | none :: rest, i => buildTpIndexGo rest (i + 1)
  | some tp :: rest, i =>
      ((tp.matchings_index, tp.waypoint_index), i) :: buildTpIndexGo rest (i + 1)

/-- The dict `d_tracepoint_index` built over all tracepoints. -/
def buildTpIndex (tps : List (Option TracepointRec)) : List ((ℕ × ℕ) × ℕ) :=
  buildTpIndexGo tps 0

/-- Python dict lookup on an insertion-order association list:
the most recent binding of a key wins. -/
def dictLookup : List ((ℕ × ℕ) × ℕ) → ℕ × ℕ → Option ℕ
  | [], _ => none
  | (k, v) :: rest, key =>
      match dictLookup rest key with
      | some r => some r
      | none => if k = key then some v else none

/-- Snapped coordinates of one tracepoint entry: `(snap_lon, snap_lat)`,
both `None` when the tracepoint is null. -/
def tpSnap : Option TracepointRec → Option ℚ × Option ℚ
  | none => (none, none)
  | some tp => (some tp.location.1, some tp.location.2)

/-- The timestamp copied through for row `i` (when timestamps are
supplied); an out-of-range
index raises. -/
def tpTstamp (timestamps : Option (List ℤ)) (i : ℕ) : Except MatchError (Option ℤ) :=
  match timestamps with
  | none => .ok none
  | some ts =>
      match ts.get? i with
      | some t => .ok (some t)
      | none => .error .indexError

/-- Prepend a row to the remaining rows, propagating errors. -/
def consRow (row : TpRow) : Except MatchError (List TpRow) → Except MatchError (List TpRow)
  | .error e => .error e
  | .ok rows => .ok (row :: rows)

/-- The tracepoint loop building `l_tp`: one row per entry of
the tracepoints array of the response, reading the longitude, latitude
and (when supplied) timestamp at index `i`; an out-of-range index raises. -/
def tpRowsGo (latitudes longitudes : List ℚ) (timestamps : Option (List ℤ)) :
    List (Option TracepointRec) → ℕ → Except MatchError (List TpRow)
  | [], _ => .ok []
  | otp :: rest, i =>
      match longitudes.get? i, latitudes.get? i, tpTstamp timestamps i with
      | some lon, some lat, .ok tstamp =>
          consRow ⟨i, lon, lat, (tpSnap otp).1, (tpSnap otp).2, tstamp⟩
            (tpRowsGo latitudes longitudes timestamps rest (i + 1))
      | _, _, .error e => .error e
      | _, _, _ => .error .indexError

/-! ### Route pass -/

/-- Every adjacent pair of the node-id sequence, in order. -/
def adjPairs (nodes : List ℤ) : List (ℤ × ℤ) :=
  (List.range (nodes.length - 1)).filterMap (fun i =>
    match nodes.get? i, nodes.get? (i + 1) with
    | some a, some b => some (a, b)
    | _, _ => none)

/-- The step loop: assert every step geometry type is `"LineString"`,
concatenating the step coordinate sequences in order. -/
def collectStepCoords : List Step → Except MatchError (List Coord)
  | [] => .ok []
  | s :: rest =>
      if s.geomType = "LineString" then
        match collectStepCoords rest with
        | .ok cs => .ok (s.coordinates ++ cs)
        | .error e => .error e
      else .error .assertGeom

/-- The body of the inner leg loop of `_mapmatch_custom`:
resolve both endpoints via the tracepoint dict (KeyError when absent),
build node pairs, round distances, and build the deduplicated coordinate
path ending with the maneuver location of the last step (IndexError when the
leg has no step). -/
def processLeg (d : List ((ℕ × ℕ) × ℕ)) (route_idx leg_idx : ℕ) (leg : Leg) :
    Except MatchError LegRow :=
  match dictLookup d (route_idx, leg_idx) with
  | none => .error .keyError
  | some from_tp =>
      match dictLookup d (route_idx, leg_idx + 1) with
      | none => .error .keyError
      | some to_tp =>
          match collectStepCoords leg.steps with
          | .error e => .error e
          | .ok cs =>
              match leg.steps.getLast? with
              | none => .error .indexError
              | some lastStep =>
                  .ok ⟨from_tp, to_tp, route_idx, leg_idx, adjPairs leg.nodes,
                       leg.distance.map round3,
                       dedupConsec (cs ++ [lastStep.maneuverLocation])⟩

/-- The enumerated loop over the legs of one route, starting at `leg_idx`. -/
def processLegs (d : List ((ℕ × ℕ) × ℕ)) (route_idx : ℕ) :
    List Leg → ℕ → Except MatchError (List LegRow)
  | [], _ => .ok []
  | leg :: rest, leg_idx =>
      match processLeg d route_idx leg_idx leg with
      | .error e => .error e
      | .ok row =>
          match processLegs d route_idx rest (leg_idx + 1) with
          | .error e => .error e
          | .ok rows => .ok (row :: rows)

/-- The enumerated loop over the matchings of the response, starting at
`route_idx`; accumulates `l_rte`. -/
def processRoutes (d : List ((ℕ × ℕ) × ℕ)) :
    List Matching → ℕ → Except MatchError (List LegRow)
  | [], _ => .ok []
  | m :: rest, route_idx =>
      match processLegs d route_idx m.legs 0 with
      | .error e => .error e
      | .ok rows =>
          match processRoutes d rest (route_idx + 1) with
          | .error e => .error e
          | .ok rows2 => .ok (rows ++ rows2)

/-! ### Reconciliation (left join against the exhaustive pair set) -/

/-- Row produced for a consecutive pair with no matched leg: `matched=False`,
null route/leg indices, list columns filled with the empty list. -/
def unmatchedRow (i : ℕ) : RteRow := ⟨i, i + 1, false, none, none, [], [], []⟩

/-- Row produced for a consecutive pair joined with matched leg row `r`. -/
def matchedRow (i : ℕ) (r : LegRow) : RteRow :=
  ⟨i, i + 1, true, some r.route_idx, some r.leg_idx, r.node_pairs, r.distances, r.coords⟩

/-- The left join of `df_rts_all` (all pairs `(i, i+1)` for
`i in range(n-1)`) against the matched-leg rows on `(from_tp, to_tp)`,
followed by the `matched` flag and the nullable/empty-list fills. -/
def mergeRows (n : ℕ) (legRows : List LegRow) : List RteRow :=
  (List.range (n - 1)).flatMap (fun i =>
    let ms := legRows.filter (fun r => r.from_tp == i && r.to_tp == i + 1)
    if ms = [] then [unmatchedRow i] else ms.map (matchedRow i))

/-! ### The single-window matcher `_mapmatch_custom` -/

/-- Embedding of `_mapmatch_custom`, starting from the decoded response
`resp` of the network call it performs.  Returns
`(df_tp, df_rte, code)`; the dataframes are `none` when the response code
is not `"Ok"`. -/
def mapmatch_single (resp : MatchResponse) (latitudes longitudes : List ℚ)
    (timestamps : Option (List ℤ)) :
    Except MatchError (Option (List TpRow) × Option (List RteRow) × String) :=
  if resp.code = "Ok" then
    match tpRowsGo latitudes longitudes timestamps resp.tracepoints 0 with
    | .error e => .error e
    | .ok l_tp =>
        match processRoutes (buildTpIndex resp.tracepoints) resp.matchings 0 with
        | .error e => .error e
        | .ok l_rte =>
            .ok (some l_tp, some (mergeRows latitudes.length l_rte), "Ok")
  else .ok (none, none, resp.code)

/-! ### The chunked matcher `mapmatch_custom` -/

/-- Window bounds of iteration `k`:
`lower_idx = k*(max_matching_size-1)`,
`upper_idx = min(lower_idx + max_matching_size, n_waypoints)`. -/
def chunkBounds (max_matching_size n_waypoints k : ℕ) : ℕ × ℕ :=
  (k * (max_matching_size - 1),
   min (k * (max_matching_size - 1) + max_matching_size) n_waypoints)

/-- Python slice `l[lower:upper]`. -/
def pySlice {α : Type} (l : List α) (lower upper : ℕ) : List α :=
  (l.drop lower).take (upper - lower)

/-- The sequence of `(lower_idx, upper_idx)` bounds the `while True` loop of
`mapmatch_custom` iterates over, starting at iteration `k`; `fuel` bounds
the number of iterations (the Python loop has no such bound and diverges
when `max_matching_size < 2`). -/
def windowList (W n : ℕ) : ℕ → ℕ → List (ℕ × ℕ)
  | 0, _ => []
  | fuel + 1, k =>
      if (chunkBounds W n k).2 = n then [chunkBounds W n k]
      else chunkBounds W n k :: windowList W n fuel (k + 1)

/-- The per-window contribution: when the status of the window is `"Ok"` the
window-tagged rows are kept as one dataframe each (`None` dataframes here
would be a Python AttributeError); otherwise nothing is contributed. -/
def chunkContrib (k : ℕ) (code : String) (otp : Option (List TpRow))
    (orte : Option (List RteRow)) :
    Except MatchError (List (List (ℕ × TpRow)) × List (List (ℕ × RteRow))) :=
  if code = "Ok" then
    match otp, orte with
    | some t, some r =>
        .ok ([t.map (fun row => (k, row))], [r.map (fun row => (k, row))])
    | _, _ => .error .noneType
  else .ok ([], [])

/-- The `while True` loop of `mapmatch_custom`, starting at `query_idx = k`:
slice the inputs to the current window, run the single-window matcher on the
response `oracle k` of the window, record the status code, keep the window-tagged
rows when the code is `"Ok"`, and stop once `upper_idx` reaches the number
of waypoints. -/
def chunkGo (oracle : ℕ → MatchResponse) (latitudes longitudes : List ℚ)
    (timestamps : Option (List ℤ)) (W : ℕ) :
    ℕ → ℕ → Except MatchError
      (List (List (ℕ × TpRow)) × List (List (ℕ × RteRow)) × List String)
  | 0, _ => .ok ([], [], [])
  | fuel + 1, k =>
      match mapmatch_single (oracle k)
          (pySlice latitudes (chunkBounds W latitudes.length k).1
            (chunkBounds W latitudes.length k).2)
          (pySlice longitudes (chunkBounds W latitudes.length k).1
            (chunkBounds W latitudes.length k).2)
          (timestamps.map (fun t => pySlice t (chunkBounds W latitudes.length k).1
            (chunkBounds W latitudes.length k).2)) with
      | .error e => .error e
      | .ok (otp, orte, code) =>
          match chunkContrib k code otp orte with
          | .error e => .error e
          | .ok (tk, rk) =>
              if (chunkBounds W latitudes.length k).2 = latitudes.length then
                .ok (tk, rk, [code])
              else
                match chunkGo oracle latitudes longitudes timestamps W fuel (k + 1) with
                | .error e => .error e
                | .ok (ts2, rs2, cs2) => .ok (tk ++ ts2, rk ++ rs2, code :: cs2)

/-- Embedding of `mapmatch_custom`: run the windows from `query_idx = 0`,
then concatenate the per-window dataframes (`None` when no window
contributed one).  `oracle k` is the decoded response of the network
call of window `k`.  The fuel `latitudes.length + 1` is sufficient for
termination whenever `max_matching_size ≥ 2` (proved below). -/
def mapmatch_custom (oracle : ℕ → MatchResponse) (latitudes longitudes : List ℚ)
    (timestamps : Option (List ℤ)) (max_matching_size : ℕ) :
    Except MatchError
      (Option (List (ℕ × TpRow)) × Option (List (ℕ × RteRow)) × List String) :=
  match chunkGo oracle latitudes longitudes timestamps max_matching_size
      (latitudes.length + 1) 0 with
  | .error e => .error e
  | .ok (l_tp, l_rte, l_code) =>
      .ok ((if 0 < l_tp.length then some l_tp.flatten else none),
           (if 0 < l_rte.length then some l_rte.flatten else none), l_code)

/-! ### The request formatter `match` -/

/-- Python `int(q)`: truncation toward zero. -/
def intTrunc (q : ℚ) : ℤ := if q < 0 then -(ratFloor (-q)) else ratFloor q

/-- Decimal rendering of an integer, as a character list. -/
def intRepr (i : ℤ) : List Char := (toString i).data

/-- Python `sep.join(l)` on character lists. -/
def pyJoin (sep : List Char) : List (List Char) → List Char
  | [] => []
  | [a] => a
  | a :: b :: rest => a ++ sep ++ pyJoin sep (b :: rest)

/-- The coordinate-path fragment: append one `"lon,lat;"` group per point of
`zip(latitudes, longitudes)` (rendering numbers with `rep`), then drop the
final character (the trailing semicolon). -/
def formatted_lat_lon (rep : ℚ → List Char) (latitudes longitudes : List ℚ) :
    List Char :=
  (((latitudes.zip longitudes).map
      (fun p => rep p.2 ++ [','] ++ rep p.1 ++ [';'])).flatten).dropLast

/-- Embedding of the request-string construction of `match` (the network
call and JSON decoding are outside the model).  `rep` renders a number the
way Python string formatting would. -/
def matchRequest (rep : ℚ → List Char) (osrm_server : List Char)
    (latitudes longitudes : List ℚ) (timestamps : Option (List ℤ))
    (bearings radiuses : Option (List ℚ))
    (steps geometries overview : List Char) (annotationsOpt : List Char)
    (version : List Char) : List Char :=
  let base := osrm_server ++ "/match/".data ++ version ++ "/someprofile/".data
    ++ formatted_lat_lon rep latitudes longitudes
    ++ "?geometries=".data ++ geometries ++ "&steps=".data ++ steps
    ++ "&overview=".data ++ overview ++ "&annotations=".data ++ annotationsOpt
  let withTs :=
    match timestamps with
    | none => base
    | some ts => base ++ "&timestamps=".data ++ pyJoin [';'] (ts.map intRepr)
  let withB :=
    match bearings with
    | none => withTs
    | some bs =>
        withTs ++ "&bearings=".data ++ pyJoin [';'] (bs.map (fun b => intRepr (intTrunc b)))
  match radiuses with
  | none => withB
  | some rs =>
      withB ++ "&radiuses=".data ++ pyJoin [';'] (rs.map (fun r => intRepr (intTrunc r)))

/-! ### Concrete fixtures used by witnesses -/

/-- Example latitudes (three points). -/
def exLats : List ℚ := [0, 1, 2]

/-- Example longitudes (three points). -/
def exLons : List ℚ := [10, 11, 12]

/-- Example `"Ok"` response: first two points matched into one route with a
single leg, third point unmatched. -/
def exResp : MatchResponse :=
  { code := "Ok"
    tracepoints := [some ⟨0, 0, (10, 0)⟩, some ⟨0, 1, (11, 1)⟩, none]
    matchings := [⟨[⟨[10, 11], [], [⟨"LineString", [(10, 0), (11, 1)], (11, 1)⟩]⟩]⟩] }

/-- Example dict for the response `exResp`. -/
def exDict : List ((ℕ × ℕ) × ℕ) := [((0, 0), 0), ((0, 1), 1)]

/-- Example leg (one step, no distance entries). -/
def exLeg : Leg := ⟨[10, 11], [], [⟨"LineString", [(10, 0), (11, 1)], (11, 1)⟩]⟩

/-- Example response with a step geometry of the wrong type. -/
def badStepResp : MatchResponse :=
  { code := "Ok"
    tracepoints := [some ⟨0, 0, (10, 0)⟩, some ⟨0, 1, (11, 1)⟩]
    matchings := [⟨[⟨[10, 11], [], [⟨"Point", [(10, 0)], (11, 1)⟩]⟩]⟩] }

/-- Oracle whose every window response fails with code `"NoSegment"`. -/
def exOracleFail : ℕ → MatchResponse := fun _ => ⟨"NoSegment", [], []⟩

/-! ## Theorems

### Coordinate deduplication -/

theorem dedupGo_eq_filterMap (xs : List Coord) (prev : Coord) :
    (List.range xs.length).filterMap
      (fun j => if xs.get? j ≠ (prev :: xs).get? j then xs.get? j else none)
    = dedupGo prev xs := by
  induction xs generalizing prev with
  | nil => simp [dedupGo]
  | cons y ys ih =>
      rw [List.length_cons, List.range_succ_eq_map, List.filterMap_cons, List.filterMap_map]
      have htail :
          (fun j => if (y :: ys).get? j ≠ (prev :: y :: ys).get? j
              then (y :: ys).get? j else none) ∘ Nat.succ
          = fun j => if ys.get? j ≠ (y :: ys).get? j then ys.get? j else none := by
        funext j
        simp [Function.comp]
      rw [htail, ih]
      by_cases hy : y = prev
      · subst hy
        simp [dedupGo]
      · simp [dedupGo, hy, Option.some.injEq]

/-- The index-based comprehension of the source equals the recursive
description of consecutive deduplication given by the spec. -/
theorem dedupConsec_eq_dedupSpec (l : List Coord) : dedupConsec l = dedupSpec l := by
  cases l with
  | nil => simp [dedupConsec, dedupSpec]
  | cons a xs =>
      unfold dedupConsec dedupSpec
      rw [List.length_cons, List.range_succ_eq_map, List.filterMap_cons, List.filterMap_map]
      have hhead : (if (0 : ℕ) = 0 ∨ (a :: xs).get? 0 ≠ (a :: xs).get? (0 - 1)
          then (a :: xs).get? 0 else none) = some a := by simp
      rw [hhead]
      have htail :
          (fun i => if i = 0 ∨ (a :: xs).get? i ≠ (a :: xs).get? (i - 1)
              then (a :: xs).get? i else none) ∘ Nat.succ
          = fun j => if xs.get? j ≠ (a :: xs).get? j then xs.get? j else none := by
        funext j
        simp [Function.comp]
      rw [htail, dedupGo_eq_filterMap]

/-! ### Step coordinate collection -/

theorem collectStepCoords_ok {steps : List Step} {cs : List Coord}
    (h : collectStepCoords steps = .ok cs) :
    cs = steps.flatMap Step.coordinates := by
  induction steps generalizing cs with
  | nil =>
      simp [collectStepCoords] at h
      simp [h.symm]
  | cons s rest ih =>
      by_cases hg : s.geomType = "LineString"
      · rw [collectStepCoords, if_pos hg] at h
        cases hrest : collectStepCoords rest with
        | error e => rw [hrest] at h; exact absurd h (by simp)
        | ok cs2 =>
            rw [hrest] at h
            have : s.coordinates ++ cs2 = cs := by
              simpa using h
            rw [← this, ih hrest]
            simp
      · rw [collectStepCoords, if_neg hg] at h
        exact absurd h (by simp)

theorem collectStepCoords_all_line {steps : List Step} {cs : List Coord}
    (h : collectStepCoords steps = .ok cs) :
    ∀ s ∈ steps, s.geomType = "LineString" := by
  induction steps generalizing cs with
  | nil => simp
  | cons s rest ih =>
      by_cases hg : s.geomType = "LineString"
      · rw [collectStepCoords, if_pos hg] at h
        cases hrest : collectStepCoords rest with
        | error e => rw [hrest] at h; exact absurd h (by simp)
        | ok cs2 =>
            intro t ht
            rcases List.mem_cons.1 ht with rfl | ht2
            · exact hg
            · exact ih hrest t ht2
      · rw [collectStepCoords, if_neg hg] at h
        exact absurd h (by simp)

theorem collectStepCoords_err {steps : List Step}
    (h : ∃ s ∈ steps, s.geomType ≠ "LineString") :
    collectStepCoords steps = .error .assertGeom := by
  induction steps with
  | nil => simp at h
  | cons s rest ih =>
      by_cases hg : s.geomType = "LineString"
      · rcases h with ⟨t, ht, hbad⟩
        rcases List.mem_cons.1 ht with rfl | ht2
        · exact absurd hg hbad
        · rw [collectStepCoords, if_pos hg, ih ⟨t, ht2, hbad⟩]
      · rw [collectStepCoords, if_neg hg]

theorem collectStepCoords_no_assert {steps : List Step}
    (h : ∀ s ∈ steps, s.geomType = "LineString") :
    ∃ cs, collectStepCoords steps = .ok cs := by
  induction steps with
  | nil => exact ⟨[], rfl⟩
  | cons s rest ih =>
      rcases ih (fun t ht => h t (List.mem_cons_of_mem s ht)) with ⟨cs, hcs⟩
      exact ⟨s.coordinates ++ cs,
        by rw [collectStepCoords, if_pos (h s (List.mem_cons_self s rest)), hcs]⟩

/-! ### The leg coordinate path (claim C4) -/

theorem processLeg_ok_coords {d : List ((ℕ × ℕ) × ℕ)} {route_idx leg_idx : ℕ}
    {leg : Leg} {row : LegRow} (h : processLeg d route_idx leg_idx leg = .ok row) :
    ∃ lastStep, leg.steps.getLast? = some lastStep ∧
      row.coords = dedupConsec (leg.steps.flatMap Step.coordinates
        ++ [lastStep.maneuverLocation]) := by
  unfold processLeg at h
  cases h1 : dictLookup d (route_idx, leg_idx) with
  | none => rw [h1] at h; exact absurd h (by simp)
  | some from_tp =>
      rw [h1] at h
      cases h2 : dictLookup d (route_idx, leg_idx + 1) with
      | none => rw [h2] at h; exact absurd h (by simp)
      | some to_tp =>
          rw [h2] at h
          cases h3 : collectStepCoords leg.steps with
          | error e => rw [h3] at h; exact absurd h (by simp)
          | ok cs =>
              rw [h3] at h
              cases h4 : leg.steps.getLast? with
              | none => rw [h4] at h; exact absurd h (by simp)
              | some lastStep =>
                  rw [h4] at h
                  refine ⟨lastStep, rfl, ?_⟩
                  have hrow : row = ⟨from_tp, to_tp, route_idx, leg_idx,
                      adjPairs leg.nodes, leg.distance.map round3,
                      dedupConsec (cs ++ [lastStep.maneuverLocation])⟩ := by
                    have := Except.ok.inj h
                    exact this.symm
                  rw [hrow, ← collectStepCoords_ok h3]

/-- Claim C4: for every matched leg in a successful response, the
single-window matcher builds the coordinate path of the leg by
concatenating the geometry coordinate sequence of every step in step
order, appending the maneuver location of the final step, then removing
consecutive duplicates
(keep index 0 unconditionally, drop any subsequent point equal to its
immediate predecessor); in particular
`[[0,0],[0,0],[1,1],[1,1],[1,1],[2,2]]` reduces to `[[0,0],[1,1],[2,2]]`. -/
theorem C4_coord_path {d : List ((ℕ × ℕ) × ℕ)} {route_idx leg_idx : ℕ}
    {leg : Leg} {row : LegRow} (h : processLeg d route_idx leg_idx leg = .ok row) :
    (∃ lastStep, leg.steps.getLast? = some lastStep ∧
        row.coords = dedupSpec (leg.steps.flatMap Step.coordinates
          ++ [lastStep.maneuverLocation]))
    ∧ dedupConsec [(0, 0), (0, 0), (1, 1), (1, 1), (1, 1), (2, 2)]
        = [(0, 0), (1, 1), (2, 2)] := by
  refine ⟨?_, by decide⟩
  rcases processLeg_ok_coords h with ⟨lastStep, hlast, hcoords⟩
  exact ⟨lastStep, hlast, by rw [hcoords, dedupConsec_eq_dedupSpec]⟩

/-- Witness for C4 at a concrete leg. -/
theorem C4_coord_path_witness :
    ((∃ lastStep, exLeg.steps.getLast? = some lastStep ∧
        (⟨0, 1, 0, 0, [(10, 11)], [], [(10, 0), (11, 1)]⟩ : LegRow).coords
          = dedupSpec (exLeg.steps.flatMap Step.coordinates
            ++ [lastStep.maneuverLocation]))
    ∧ dedupConsec [(0, 0), (0, 0), (1, 1), (1, 1), (1, 1), (2, 2)]
        = [(0, 0), (1, 1), (2, 2)]) :=
  C4_coord_path
    (by decide : processLeg exDict 0 0 exLeg
      = .ok ⟨0, 1, 0, 0, [(10, 11)], [], [(10, 0), (11, 1)]⟩)

/-! ### Rounding (claim C8) -/

theorem ratFloor_eq_floor (q : ℚ) : ratFloor q = ⌊q⌋ := Rat.floor_def.symm

theorem roundHalfEven_abs_le (x : ℚ) : |x - (roundHalfEven x : ℚ)| ≤ 1 / 2 := by
  have hf : ((ratFloor x : ℤ) : ℚ) ≤ x := by
    rw [ratFloor_eq_floor]; exact Int.floor_le x
  have hf1 : x < ((ratFloor x : ℤ) : ℚ) + 1 := by
    rw [ratFloor_eq_floor]; exact Int.lt_floor_add_one x
  rw [roundHalfEven]
  by_cases h1 : x - (ratFloor x : ℚ) < 1 / 2
  · rw [if_pos h1, abs_le]
    constructor <;> linarith
  · rw [if_neg h1]
    by_cases h2 : 1 / 2 < x - (ratFloor x : ℚ)
    · rw [if_pos h2, abs_le]
      push_cast
      constructor <;> linarith
    · rw [if_neg h2]
      have hx : x - (ratFloor x : ℚ) = 1 / 2 :=
        le_antisymm (not_lt.1 h2) (not_lt.1 h1)
      by_cases h3 : ratFloor x % 2 = 0
      · rw [if_pos h3, abs_le]
        constructor <;> linarith
      · rw [if_neg h3, abs_le]
        push_cast
        constructor <;> linarith

theorem round3_abs_le (q : ℚ) : |q - round3 q| ≤ 1 / 2000 := by
  have h := roundHalfEven_abs_le (q * 1000)
  rw [round3]
  have heq : q - (roundHalfEven (q * 1000) : ℚ) / 1000
      = (q * 1000 - (roundHalfEven (q * 1000) : ℚ)) / 1000 := by ring
  rw [heq, abs_div]
  have h1000 : |(1000 : ℚ)| = 1000 := by norm_num
  rw [h1000, div_le_iff₀ (by norm_num : (0 : ℚ) < 1000)]
  have : (1 : ℚ) / 2000 * 1000 = 1 / 2 := by norm_num
  rw [this]
  exact h

theorem round3_thousandth (q : ℚ) : ∃ z : ℤ, round3 q = (z : ℚ) / 1000 :=
  ⟨roundHalfEven (q * 1000), rfl⟩

theorem round3_concrete : round3 (12.34567 : ℚ) = (12.346 : ℚ) := by
  have h1 : (12.34567 : ℚ) * 1000 = 12345.67 := by norm_num
  have hfl : ratFloor (12345.67 : ℚ) = 12345 := by
    rw [ratFloor_eq_floor, Int.floor_eq_iff]
    norm_num
  rw [round3, h1, roundHalfEven, hfl]
  norm_num

/-! ### Full shape of a matched-leg row -/

theorem processLeg_ok_shape {d : List ((ℕ × ℕ) × ℕ)} {route_idx leg_idx : ℕ}
    {leg : Leg} {row : LegRow} (h : processLeg d route_idx leg_idx leg = .ok row) :
    ∃ from_tp to_tp cs lastStep,
      dictLookup d (route_idx, leg_idx) = some from_tp ∧
      dictLookup d (route_idx, leg_idx + 1) = some to_tp ∧
      collectStepCoords leg.steps = .ok cs ∧
      leg.steps.getLast? = some lastStep ∧
      row = ⟨from_tp, to_tp, route_idx, leg_idx, adjPairs leg.nodes,
             leg.distance.map round3,
             dedupConsec (cs ++ [lastStep.maneuverLocation])⟩ := by
  unfold processLeg at h
  cases h1 : dictLookup d (route_idx, leg_idx) with
  | none => rw [h1] at h; exact absurd h (by simp)
  | some from_tp =>
      rw [h1] at h
      cases h2 : dictLookup d (route_idx, leg_idx + 1) with
      | none => rw [h2] at h; exact absurd h (by simp)
      | some to_tp =>
          rw [h2] at h
          cases h3 : collectStepCoords leg.steps with
          | error e => rw [h3] at h; exact absurd h (by simp)
          | ok cs =>
              rw [h3] at h
              cases h4 : leg.steps.getLast? with
              | none => rw [h4] at h; exact absurd h (by simp)
              | some lastStep =>
                  rw [h4] at h
                  exact ⟨from_tp, to_tp, cs, lastStep, rfl, rfl, rfl, rfl,
                    (Except.ok.inj h).symm⟩

/-! ### Deduplication only removes points -/

theorem dedupGo_subset (l : List Coord) : ∀ (prev : Coord), ∀ x ∈ dedupGo prev l, x ∈ l := by
  induction l with
  | nil => intro prev x hx; simp [dedupGo] at hx
  | cons y ys ih =>
      intro prev x hx
      rw [dedupGo] at hx
      by_cases hy : y = prev
      · rw [if_pos hy] at hx
        exact List.mem_cons_of_mem y (ih y x hx)
      · rw [if_neg hy] at hx
        rcases List.mem_cons.1 hx with rfl | hx2
        · exact List.mem_cons_self _ _
        · exact List.mem_cons_of_mem y (ih y x hx2)

theorem dedupSpec_subset (l : List Coord) : ∀ x ∈ dedupSpec l, x ∈ l := by
  cases l with
  | nil => simp [dedupSpec]
  | cons a xs =>
      intro x hx
      rw [dedupSpec] at hx
      rcases List.mem_cons.1 hx with rfl | hx2
      · exact List.mem_cons_self _ _
      · exact List.mem_cons_of_mem a (dedupGo_subset xs a x hx2)

/-- Claim C8: every per-pair distance is stored rounded to 3 decimal places
(round-half-even, the Python `round`), rounding touches only the distances
(every stored coordinate is a verbatim step-geometry point or the final
maneuver location), and `round3 12.34567 = 12.346`. -/
theorem C8_distance_rounding {d : List ((ℕ × ℕ) × ℕ)} {route_idx leg_idx : ℕ}
    {leg : Leg} {row : LegRow} (h : processLeg d route_idx leg_idx leg = .ok row) :
    row.distances = leg.distance.map round3
    ∧ (∀ q : ℚ, |q - round3 q| ≤ 1 / 2000 ∧ ∃ z : ℤ, round3 q = (z : ℚ) / 1000)
    ∧ (∀ c ∈ row.coords, c ∈ leg.steps.flatMap Step.coordinates
        ∨ ∃ ls, leg.steps.getLast? = some ls ∧ c = ls.maneuverLocation)
    ∧ round3 (12.34567 : ℚ) = (12.346 : ℚ) := by
  rcases processLeg_ok_shape h with ⟨from_tp, to_tp, cs, lastStep, _, _, h3, h4, hrow⟩
  refine ⟨by rw [hrow], fun q => ⟨round3_abs_le q, round3_thousandth q⟩, ?_, round3_concrete⟩
  intro c hc
  rw [hrow] at hc
  have hc2 : c ∈ cs ++ [lastStep.maneuverLocation] := by
    have := dedupSpec_subset (cs ++ [lastStep.maneuverLocation])
    rw [← dedupConsec_eq_dedupSpec] at this
    exact this c hc
  rcases List.mem_append.1 hc2 with hcs | hm
  · rw [collectStepCoords_ok h3] at hcs
    exact Or.inl hcs
  · exact Or.inr ⟨lastStep, h4, List.mem_singleton.1 hm⟩

/-- Witness for C8 at a concrete leg. -/
theorem C8_distance_rounding_witness :
    ((⟨0, 1, 0, 0, [(10, 11)], [], [(10, 0), (11, 1)]⟩ : LegRow).distances
        = exLeg.distance.map round3
    ∧ (∀ q : ℚ, |q - round3 q| ≤ 1 / 2000 ∧ ∃ z : ℤ, round3 q = (z : ℚ) / 1000)
    ∧ (∀ c ∈ (⟨0, 1, 0, 0, [(10, 11)], [], [(10, 0), (11, 1)]⟩ : LegRow).coords,
        c ∈ exLeg.steps.flatMap Step.coordinates
        ∨ ∃ ls, exLeg.steps.getLast? = some ls ∧ c = ls.maneuverLocation)
    ∧ round3 (12.34567 : ℚ) = (12.346 : ℚ)) :=
  C8_distance_rounding
    (by decide : processLeg exDict 0 0 exLeg
      = .ok ⟨0, 1, 0, 0, [(10, 11)], [], [(10, 0), (11, 1)]⟩)

/-! ### The tracepoint dict: a value determines its key -/

theorem buildTpIndexGo_mem {tps : List (Option TracepointRec)} :
    ∀ {i : ℕ} {key : ℕ × ℕ} {v : ℕ}, (key, v) ∈ buildTpIndexGo tps i →
      ∃ tp, tps.get? (v - i) = some (some tp) ∧ i ≤ v ∧
        key = (tp.matchings_index, tp.waypoint_index) := by
  induction tps with
  | nil => intro i key v h; simp [buildTpIndexGo] at h
  | cons otp rest ih =>
      intro i key v h
      cases otp with
      | none =>
          rw [buildTpIndexGo] at h
          rcases ih h with ⟨tp, hget, hle, hkey⟩
          refine ⟨tp, ?_, le_trans (Nat.le_succ i) hle, hkey⟩
          have hvi : v - i = (v - (i + 1)) + 1 := by omega
          rw [hvi]
          simpa using hget
      | some tp0 =>
          rw [buildTpIndexGo] at h
          rcases List.mem_cons.1 h with heq | htail
          · have h1 : key = (tp0.matchings_index, tp0.waypoint_index) ∧ v = i := by
              constructor
              · exact congrArg Prod.fst heq
              · exact congrArg Prod.snd heq
            refine ⟨tp0, ?_, le_of_eq h1.2.symm, h1.1⟩
            rw [h1.2]
            simp
          · rcases ih htail with ⟨tp, hget, hle, hkey⟩
            refine ⟨tp, ?_, le_trans (Nat.le_succ i) hle, hkey⟩
            have hvi : v - i = (v - (i + 1)) + 1 := by omega
            rw [hvi]
            simpa using hget

theorem buildTpIndex_value_key {tps : List (Option TracepointRec)}
    {k k' : ℕ × ℕ} {v : ℕ}
    (h : (k, v) ∈ buildTpIndex tps) (h' : (k', v) ∈ buildTpIndex tps) : k = k' := by
  rcases buildTpIndexGo_mem h with ⟨tp, hget, _, hkey⟩
  rcases buildTpIndexGo_mem h' with ⟨tp2, hget2, _, hkey2⟩
  rw [hget] at hget2
  have : tp = tp2 := Option.some.inj (Option.some.inj hget2)
  rw [hkey, hkey2, this]

theorem dictLookup_mem {d : List ((ℕ × ℕ) × ℕ)} {key : ℕ × ℕ} {v : ℕ}
    (h : dictLookup d key = some v) : (key, v) ∈ d := by
  induction d with
  | nil => simp [dictLookup] at h
  | cons kv rest ih =>
      rcases kv with ⟨k0, v0⟩
      rw [dictLookup] at h
      cases hrest : dictLookup rest key with
      | some r =>
          rw [hrest] at h
          have : r = v := Option.some.inj h
          exact List.mem_cons_of_mem _ (ih (by rw [hrest, this]))
      | none =>
          rw [hrest] at h
          by_cases hk : k0 = key
          · rw [if_pos hk] at h
            have : v0 = v := Option.some.inj h
            rw [← hk, ← this]
            exact List.mem_cons_self _ _
          · rw [if_neg hk] at h
            exact absurd h (by simp)

theorem dictLookup_inj {tps : List (Option TracepointRec)} {k k' : ℕ × ℕ} {v : ℕ}
    (h : dictLookup (buildTpIndex tps) k = some v)
    (h' : dictLookup (buildTpIndex tps) k' = some v) : k = k' :=
  buildTpIndex_value_key (dictLookup_mem h) (dictLookup_mem h')

/-! ### Shape of the matched-leg rows -/

theorem processLegs_ok_mem {d : List ((ℕ × ℕ) × ℕ)} {r : ℕ} :
    ∀ {legs : List Leg} {p : ℕ} {rows : List LegRow},
      processLegs d r legs p = .ok rows →
      ∀ row ∈ rows, row.route_idx = r ∧ p ≤ row.leg_idx ∧
        dictLookup d (r, row.leg_idx) = some row.from_tp := by
  intro legs
  induction legs with
  | nil =>
      intro p rows h row hrow
      rw [processLegs] at h
      rw [← Except.ok.inj h] at hrow
      simp at hrow
  | cons leg rest ih =>
      intro p rows h row hrow
      rw [processLegs] at h
      cases h1 : processLeg d r p leg with
      | error e => rw [h1] at h; exact absurd h (by simp)
      | ok row0 =>
          rw [h1] at h
          cases h2 : processLegs d r rest (p + 1) with
          | error e => rw [h2] at h; exact absurd h (by simp)
          | ok rows2 =>
              rw [h2] at h
              rw [← Except.ok.inj h] at hrow
              rcases List.mem_cons.1 hrow with rfl | htail
              · rcases processLeg_ok_shape h1 with
                  ⟨from_tp, to_tp, cs, lastStep, hd1, _, _, _, hrow0⟩
                rw [hrow0]
                exact ⟨rfl, le_refl p, hd1⟩
              · rcases ih h2 row htail with ⟨ha, hb, hc⟩
                exact ⟨ha, le_trans (Nat.le_succ p) hb, hc⟩

theorem processLegs_ok_pairwise {d : List ((ℕ × ℕ) × ℕ)} {r : ℕ} :
    ∀ {legs : List Leg} {p : ℕ} {rows : List LegRow},
      processLegs d r legs p = .ok rows →
      rows.Pairwise (fun a b => a.leg_idx < b.leg_idx) := by
  intro legs
  induction legs with
  | nil =>
      intro p rows h
      rw [processLegs] at h
      rw [← Except.ok.inj h]
      exact List.Pairwise.nil
  | cons leg rest ih =>
      intro p rows h
      rw [processLegs] at h
      cases h1 : processLeg d r p leg with
      | error e => rw [h1] at h; exact absurd h (by simp)
      | ok row0 =>
          rw [h1] at h
          cases h2 : processLegs d r rest (p + 1) with
          | error e => rw [h2] at h; exact absurd h (by simp)
          | ok rows2 =>
              rw [h2] at h
              rw [← Except.ok.inj h]
              rw [List.pairwise_cons]
              constructor
              · intro b hb
                have hb2 := (processLegs_ok_mem h2 b hb).2.1
                rcases processLeg_ok_shape h1 with
                  ⟨from_tp, to_tp, cs, lastStep, _, _, _, _, hrow0⟩
                rw [hrow0]
                exact lt_of_lt_of_le (Nat.lt_succ_self p) hb2
              · exact ih h2

theorem processRoutes_ok_mem {d : List ((ℕ × ℕ) × ℕ)} :
    ∀ {ms : List Matching} {r0 : ℕ} {rows : List LegRow},
      processRoutes d ms r0 = .ok rows →
      ∀ row ∈ rows, r0 ≤ row.route_idx ∧
        dictLookup d (row.route_idx, row.leg_idx) = some row.from_tp := by
  intro ms
  induction ms with
  | nil =>
      intro r0 rows h row hrow
      rw [processRoutes] at h
      rw [← Except.ok.inj h] at hrow
      simp at hrow
  | cons m rest ih =>
      intro r0 rows h row hrow
      rw [processRoutes] at h
      cases h1 : processLegs d r0 m.legs 0 with
      | error e => rw [h1] at h; exact absurd h (by simp)
      | ok rows1 =>
          rw [h1] at h
          cases h2 : processRoutes d rest (r0 + 1) with
          | error e => rw [h2] at h; exact absurd h (by simp)
          | ok rows2 =>
              rw [h2] at h
              rw [← Except.ok.inj h] at hrow
              rcases List.mem_append.1 hrow with h3 | h3
              · rcases processLegs_ok_mem h1 row h3 with ⟨ha, _, hc⟩
                exact ⟨le_of_eq ha.symm, by rw [ha]; exact hc⟩
              · rcases ih h2 row h3 with ⟨ha, hb⟩
                exact ⟨le_trans (Nat.le_succ r0) ha, hb⟩

theorem processRoutes_ok_pairwise {d : List ((ℕ × ℕ) × ℕ)} :
    ∀ {ms : List Matching} {r0 : ℕ} {rows : List LegRow},
      processRoutes d ms r0 = .ok rows →
      rows.Pairwise (fun a b => a.route_idx < b.route_idx
        ∨ (a.route_idx = b.route_idx ∧ a.leg_idx < b.leg_idx)) := by
  intro ms
  induction ms with
  | nil =>
      intro r0 rows h
      rw [processRoutes] at h
      rw [← Except.ok.inj h]
      exact List.Pairwise.nil
  | cons m rest ih =>
      intro r0 rows h
      rw [processRoutes] at h
      cases h1 : processLegs d r0 m.legs 0 with
      | error e => rw [h1] at h; exact absurd h (by simp)
      | ok rows1 =>
          rw [h1] at h
          cases h2 : processRoutes d rest (r0 + 1) with
          | error e => rw [h2] at h; exact absurd h (by simp)
          | ok rows2 =>
              rw [h2] at h
              rw [← Except.ok.inj h]
              rw [List.pairwise_append]
              refine ⟨?_, ih h2, ?_⟩
              · have hpw := processLegs_ok_pairwise h1
                refine List.Pairwise.imp_of_mem ?_ hpw
                intro a b ha hb hlt
                exact Or.inr ⟨by
                  rw [(processLegs_ok_mem h1 a ha).1, (processLegs_ok_mem h1 b hb).1],
                  hlt⟩
              · intro a ha b hb
                have ha1 := (processLegs_ok_mem h1 a ha).1
                have hb1 := (processRoutes_ok_mem h2 b hb).1
                exact Or.inl (by omega)

theorem processRoutes_from_tp_pairwise {tps : List (Option TracepointRec)}
    {ms : List Matching} {rows : List LegRow}
    (h : processRoutes (buildTpIndex tps) ms 0 = .ok rows) :
    rows.Pairwise (fun a b => a.from_tp ≠ b.from_tp) := by
  have hpw := processRoutes_ok_pairwise h
  refine List.Pairwise.imp_of_mem ?_ hpw
  intro a b ha hb hR heq
  have hla := (processRoutes_ok_mem h a ha).2
  have hlb := (processRoutes_ok_mem h b hb).2
  have hlb2 : dictLookup (buildTpIndex tps) (b.route_idx, b.leg_idx) = some a.from_tp := by
    rw [heq]; exact hlb
  have hkeys := dictLookup_inj hla hlb2
  have h1 : a.route_idx = b.route_idx := congrArg Prod.fst hkeys
  have h2 : a.leg_idx = b.leg_idx := congrArg Prod.snd hkeys
  rcases hR with hlt | ⟨_, hlt⟩ <;> omega

/-! ### The left join (claims C1 and C5) -/

theorem mergeRows_segment {legRows : List LegRow} {i : ℕ}
    (hpw : legRows.Pairwise (fun a b => a.from_tp ≠ b.from_tp)) :
    (let ms := legRows.filter (fun r => r.from_tp == i && r.to_tp == i + 1)
     if ms = [] then [unmatchedRow i] else ms.map (matchedRow i)).map
       (fun r => (r.from_tp, r.to_tp)) = [(i, i + 1)] := by
  have hfil := List.Pairwise.filter
    (fun r => r.from_tp == i && r.to_tp == i + 1) hpw
  cases hms : legRows.filter (fun r => r.from_tp == i && r.to_tp == i + 1) with
  | nil => simp [hms, unmatchedRow]
  | cons a tl =>
      cases tl with
      | nil => simp [hms, matchedRow]
      | cons b t =>
          exfalso
          rw [hms] at hfil
          have hab := List.rel_of_pairwise_cons hfil (List.mem_cons_self _ _)
          have hamem : a ∈ legRows.filter (fun r => r.from_tp == i && r.to_tp == i + 1) := by
            rw [hms]; exact List.mem_cons_self _ _
          have hbmem : b ∈ legRows.filter (fun r => r.from_tp == i && r.to_tp == i + 1) := by
            rw [hms]
            exact List.mem_cons_of_mem _ (List.mem_cons_self _ _)
          have ha := (List.mem_filter.1 hamem).2
          have hb := (List.mem_filter.1 hbmem).2
          simp only [Bool.and_eq_true, beq_iff_eq] at ha hb
          exact hab (by rw [ha.1, hb.1])

theorem mergeRows_pairKeys {n : ℕ} {legRows : List LegRow}
    (hpw : legRows.Pairwise (fun a b => a.from_tp ≠ b.from_tp)) :
    (mergeRows n legRows).map (fun r => (r.from_tp, r.to_tp))
      = (List.range (n - 1)).map (fun i => (i, i + 1)) := by
  unfold mergeRows
  rw [List.map_flatMap]
  have hseg : ∀ i ∈ List.range (n - 1),
      (let ms := legRows.filter (fun r => r.from_tp == i && r.to_tp == i + 1)
       if ms = [] then [unmatchedRow i] else ms.map (matchedRow i)).map
         (fun r => (r.from_tp, r.to_tp)) = [(i, i + 1)] :=
    fun i _ => mergeRows_segment hpw
  rw [List.flatMap_congr hseg]
  induction List.range (n - 1) with
  | nil => simp
  | cons x xs ih => simp [ih]

theorem mergeRows_mem {n : ℕ} {legRows : List LegRow} {row : RteRow}
    (h : row ∈ mergeRows n legRows) :
    (∃ i, row = unmatchedRow i) ∨ row.matched = true := by
  unfold mergeRows at h
  rcases List.mem_flatMap.1 h with ⟨i, _, hseg⟩
  by_cases hms : legRows.filter (fun r => r.from_tp == i && r.to_tp == i + 1) = []
  · rw [if_pos hms] at hseg
    exact Or.inl ⟨i, List.mem_singleton.1 hseg⟩
  · rw [if_neg hms] at hseg
    rcases List.mem_map.1 hseg with ⟨a, _, hrow⟩
    exact Or.inr (by rw [← hrow]; rfl)

/-! ### Inversion of the single-window matcher on success -/

theorem mapmatch_single_ok_inv {resp : MatchResponse} {lats lons : List ℚ}
    {tss : Option (List ℤ)} {tp : List TpRow} {rte : List RteRow} {code : String}
    (h : mapmatch_single resp lats lons tss = .ok (some tp, some rte, code)) :
    resp.code = "Ok" ∧ code = "Ok" ∧
    ∃ l_rte, processRoutes (buildTpIndex resp.tracepoints) resp.matchings 0 = .ok l_rte ∧
      rte = mergeRows lats.length l_rte := by
  unfold mapmatch_single at h
  by_cases hc : resp.code = "Ok"
  · rw [if_pos hc] at h
    cases h1 : tpRowsGo lats lons tss resp.tracepoints 0 with
    | error e => rw [h1] at h; exact absurd h (by simp)
    | ok l_tp =>
        rw [h1] at h
        cases h2 : processRoutes (buildTpIndex resp.tracepoints) resp.matchings 0 with
        | error e => rw [h2] at h; exact absurd h (by simp)
        | ok l_rte =>
            rw [h2] at h
            have h3 := Except.ok.inj h
            refine ⟨hc, ?_, l_rte, rfl, ?_⟩
            · exact (congrArg (fun x => x.2.2) h3).symm
            · have := congrArg (fun x => x.2.1) h3
              exact (Option.some.inj this).symm
  · rw [if_neg hc] at h
    have h3 := Except.ok.inj h
    have : (none : Option (List TpRow)) = some tp := congrArg (fun x => x.1) h3
    exact absurd this (by simp)

/-- Claim C1: for every successful single window (`"Ok"` status) with `N`
input points, the route table has exactly `N - 1` rows, one row per
consecutive index pair `(i, i+1)` for `0 ≤ i ≤ N-2`, each pair appearing
exactly once and in order, regardless of whether each pair was matched. -/
theorem C1_route_table_exhaustive {resp : MatchResponse} {lats lons : List ℚ}
    {tss : Option (List ℤ)} {tp : List TpRow} {rte : List RteRow}
    (h : mapmatch_single resp lats lons tss = .ok (some tp, some rte, "Ok")) :
    rte.length = lats.length - 1
    ∧ rte.map (fun r => (r.from_tp, r.to_tp))
        = (List.range (lats.length - 1)).map (fun i => (i, i + 1)) := by
  rcases mapmatch_single_ok_inv h with ⟨_, _, l_rte, hpr, hrte⟩
  have hpw := processRoutes_from_tp_pairwise hpr
  have hkeys : rte.map (fun r => (r.from_tp, r.to_tp))
      = (List.range (lats.length - 1)).map (fun i => (i, i + 1)) := by
    rw [hrte]
    exact mergeRows_pairKeys hpw
  constructor
  · have := congrArg List.length hkeys
    simpa using this
  · exact hkeys

/-- Witness for C1 at a concrete three-point window. -/
theorem C1_route_table_exhaustive_witness :
    ([⟨0, 1, true, some 0, some 0, [(10, 11)], [], [(10, 0), (11, 1)]⟩,
      ⟨1, 2, false, none, none, [], [], []⟩] : List RteRow).length = exLats.length - 1
    ∧ ([⟨0, 1, true, some 0, some 0, [(10, 11)], [], [(10, 0), (11, 1)]⟩,
        ⟨1, 2, false, none, none, [], [], []⟩] : List RteRow).map
          (fun r => (r.from_tp, r.to_tp))
        = (List.range (exLats.length - 1)).map (fun i => (i, i + 1)) :=
  C1_route_table_exhaustive
    (by decide : mapmatch_single exResp exLats exLons none =
      .ok (some [⟨0, 10, 0, some 10, some 0, none⟩,
                 ⟨1, 11, 1, some 11, some 1, none⟩,
                 ⟨2, 12, 2, none, none, none⟩],
           some [⟨0, 1, true, some 0, some 0, [(10, 11)], [], [(10, 0), (11, 1)]⟩,
                 ⟨1, 2, false, none, none, [], [], []⟩],
           "Ok"))

/-- Claim C5: every route-table row with `matched = false` has absent (null)
route and leg indices and empty (not null) node-pair, distance and
coordinate sequences. -/
theorem C5_unmatched_row_fields {resp : MatchResponse} {lats lons : List ℚ}
    {tss : Option (List ℤ)} {tp : List TpRow} {rte : List RteRow} {code : String}
    (h : mapmatch_single resp lats lons tss = .ok (some tp, some rte, code)) :
    ∀ r ∈ rte, r.matched = false →
      r.route_idx = none ∧ r.leg_idx = none
      ∧ r.node_pairs = [] ∧ r.distances = [] ∧ r.coords = [] := by
  rcases mapmatch_single_ok_inv h with ⟨_, _, l_rte, _, hrte⟩
  intro r hr hmatch
  rw [hrte] at hr
  rcases mergeRows_mem hr with ⟨i, hru⟩ | htrue
  · rw [hru]
    exact ⟨rfl, rfl, rfl, rfl, rfl⟩
  · rw [hmatch] at htrue
    exact absurd htrue (by simp)

/-- Witness for C5 at a concrete three-point window with an unmatched pair. -/
theorem C5_unmatched_row_fields_witness :
    (⟨1, 2, false, none, none, [], [], []⟩ : RteRow).route_idx = none
    ∧ (⟨1, 2, false, none, none, [], [], []⟩ : RteRow).leg_idx = none
    ∧ (⟨1, 2, false, none, none, [], [], []⟩ : RteRow).node_pairs = []
    ∧ (⟨1, 2, false, none, none, [], [], []⟩ : RteRow).distances = []
    ∧ (⟨1, 2, false, none, none, [], [], []⟩ : RteRow).coords = [] :=
  C5_unmatched_row_fields
    (by decide : mapmatch_single exResp exLats exLons none =
      .ok (some [⟨0, 10, 0, some 10, some 0, none⟩,
                 ⟨1, 11, 1, some 11, some 1, none⟩,
                 ⟨2, 12, 2, none, none, none⟩],
           some [⟨0, 1, true, some 0, some 0, [(10, 11)], [], [(10, 0), (11, 1)]⟩,
                 ⟨1, 2, false, none, none, [], [], []⟩],
           "Ok"))
    ⟨1, 2, false, none, none, [], [], []⟩ (by decide) (by decide)

/-! ### Geometry-type assertion (claim C6) -/

theorem processLeg_err_of_bad {d : List ((ℕ × ℕ) × ℕ)} {r p : ℕ} {leg : Leg}
    (hbad : ∃ s ∈ leg.steps, s.geomType ≠ "LineString") :
    ∃ e, processLeg d r p leg = .error e := by
  unfold processLeg
  cases h1 : dictLookup d (r, p) with
  | none => exact ⟨.keyError, rfl⟩
  | some from_tp =>
      cases h2 : dictLookup d (r, p + 1) with
      | none => exact ⟨.keyError, rfl⟩
      | some to_tp =>
          rw [collectStepCoords_err hbad]
          exact ⟨.assertGeom, rfl⟩

theorem processLegs_err_of_bad {d : List ((ℕ × ℕ) × ℕ)} {r : ℕ} :
    ∀ {legs : List Leg} {p : ℕ},
      (∃ leg ∈ legs, ∃ s ∈ leg.steps, s.geomType ≠ "LineString") →
      ∃ e, processLegs d r legs p = .error e := by
  intro legs
  induction legs with
  | nil => intro p h; simp at h
  | cons leg rest ih =>
      intro p hbad
      rw [processLegs]
      cases h1 : processLeg d r p leg with
      | error e => exact ⟨e, rfl⟩
      | ok row0 =>
          rcases hbad with ⟨l2, hl2, hs⟩
          rcases List.mem_cons.1 hl2 with rfl | htail
          · rcases processLeg_err_of_bad hs with ⟨e, he⟩
            rw [he] at h1
            exact absurd h1 (by simp)
          · rcases ih ⟨l2, htail, hs⟩ with ⟨e, he⟩
            rw [he]
            exact ⟨e, rfl⟩

theorem processRoutes_err_of_bad {d : List ((ℕ × ℕ) × ℕ)} :
    ∀ {ms : List Matching} {r0 : ℕ},
      (∃ m ∈ ms, ∃ leg ∈ m.legs, ∃ s ∈ leg.steps, s.geomType ≠ "LineString") →
      ∃ e, processRoutes d ms r0 = .error e := by
  intro ms
  induction ms with
  | nil => intro r0 h; simp at h
  | cons m rest ih =>
      intro r0 hbad
      rw [processRoutes]
      cases h1 : processLegs d r0 m.legs 0 with
      | error e => exact ⟨e, rfl⟩
      | ok rows1 =>
          rcases hbad with ⟨m2, hm2, hs⟩
          rcases List.mem_cons.1 hm2 with rfl | htail
          · rcases processLegs_err_of_bad hs with ⟨e, he⟩
            rw [he] at h1
            exact absurd h1 (by simp)
          · rcases ih ⟨m2, htail, hs⟩ with ⟨e, he⟩
            rw [he]
            exact ⟨e, rfl⟩

theorem tpTstamp_no_assert {timestamps : Option (List ℤ)} {i : ℕ} :
    tpTstamp timestamps i ≠ .error .assertGeom := by
  unfold tpTstamp
  cases timestamps with
  | none => simp
  | some ts =>
      cases hg : ts[i]? with
      | none => simp [hg]
      | some t => simp [hg]

theorem consRow_no_assert {row : TpRow} {rest : Except MatchError (List TpRow)}
    (h : rest ≠ .error .assertGeom) : consRow row rest ≠ .error .assertGeom := by
  unfold consRow
  cases rest with
  | error e =>
      intro hc
      exact h (by rw [Except.error.inj hc])
  | ok rows => simp

theorem tpRowsGo_no_assert {latitudes longitudes : List ℚ}
    {timestamps : Option (List ℤ)} :
    ∀ {tps : List (Option TracepointRec)} {i : ℕ},
      tpRowsGo latitudes longitudes timestamps tps i ≠ .error .assertGeom := by
  intro tps
  induction tps with
  | nil => intro i h; rw [tpRowsGo] at h; exact absurd h (by simp)
  | cons otp rest ih =>
      intro i h
      rw [tpRowsGo] at h
      cases hlon : longitudes.get? i with
      | none =>
          rw [hlon] at h
          cases hts : tpTstamp timestamps i with
          | error e =>
              rw [hts] at h
              exact tpTstamp_no_assert (by rw [hts, Except.error.inj h])
          | ok t => rw [hts] at h; simp at h
      | some lon =>
          cases hlat : latitudes.get? i with
          | none =>
              rw [hlon, hlat] at h
              cases hts : tpTstamp timestamps i with
              | error e =>
                  rw [hts] at h
                  exact tpTstamp_no_assert (by rw [hts, Except.error.inj h])
              | ok t => rw [hts] at h; simp at h
          | some lat =>
              rw [hlon, hlat] at h
              cases hts : tpTstamp timestamps i with
              | error e =>
                  rw [hts] at h
                  exact tpTstamp_no_assert (by rw [hts, Except.error.inj h])
              | ok t =>
                  rw [hts] at h
                  exact consRow_no_assert ih h

theorem processLeg_no_assert {d : List ((ℕ × ℕ) × ℕ)} {r p : ℕ} {leg : Leg}
    (hline : ∀ s ∈ leg.steps, s.geomType = "LineString") :
    processLeg d r p leg ≠ .error .assertGeom := by
  unfold processLeg
  cases h1 : dictLookup d (r, p) with
  | none => simp
  | some from_tp =>
      cases h2 : dictLookup d (r, p + 1) with
      | none => simp
      | some to_tp =>
          rcases collectStepCoords_no_assert hline with ⟨cs, hcs⟩
          rw [hcs]
          cases leg.steps.getLast? <;> simp

theorem processLegs_no_assert {d : List ((ℕ × ℕ) × ℕ)} {r : ℕ} :
    ∀ {legs : List Leg} {p : ℕ},
      (∀ leg ∈ legs, ∀ s ∈ leg.steps, s.geomType = "LineString") →
      processLegs d r legs p ≠ .error .assertGeom := by
  intro legs
  induction legs with
  | nil => intro p _ h; rw [processLegs] at h; exact absurd h (by simp)
  | cons leg rest ih =>
      intro p hline h
      rw [processLegs] at h
      cases h1 : processLeg d r p leg with
      | error e =>
          rw [h1] at h
          have : e = .assertGeom := Except.error.inj h
          rw [this] at h1
          exact processLeg_no_assert (hline leg (List.mem_cons_self _ _)) h1
      | ok row0 =>
          rw [h1] at h
          cases h2 : processLegs d r rest (p + 1) with
          | error e =>
              rw [h2] at h
              have : e = .assertGeom := Except.error.inj h
              rw [this] at h2
              exact ih (fun l hl => hline l (List.mem_cons_of_mem _ hl)) h2
          | ok rows2 => rw [h2] at h; simp at h

theorem processRoutes_no_assert {d : List ((ℕ × ℕ) × ℕ)} :
    ∀ {ms : List Matching} {r0 : ℕ},
      (∀ m ∈ ms, ∀ leg ∈ m.legs, ∀ s ∈ leg.steps, s.geomType = "LineString") →
      processRoutes d ms r0 ≠ .error .assertGeom := by
  intro ms
  induction ms with
  | nil => intro r0 _ h; rw [processRoutes] at h; exact absurd h (by simp)
  | cons m rest ih =>
      intro r0 hline h
      rw [processRoutes] at h
      cases h1 : processLegs d r0 m.legs 0 with
      | error e =>
          rw [h1] at h
          have : e = .assertGeom := Except.error.inj h
          rw [this] at h1
          exact processLegs_no_assert (hline m (List.mem_cons_self _ _)) h1
      | ok rows1 =>
          rw [h1] at h
          cases h2 : processRoutes d rest (r0 + 1) with
          | error e =>
              rw [h2] at h
              have : e = .assertGeom := Except.error.inj h
              rw [this] at h2
              exact ih (fun m2 hm2 => hline m2 (List.mem_cons_of_mem _ hm2)) h2
          | ok rows2 => rw [h2] at h; simp at h

/-- Claim C6: on an `"Ok"` response containing a step whose geometry type is
not `"LineString"`, the single-window matcher raises instead of returning a
result; and when the geometry type of every step is `"LineString"`, the
geometry-type assertion can never fire. -/
theorem C6_geometry_type_fatal (resp : MatchResponse) (lats lons : List ℚ)
    (tss : Option (List ℤ)) :
    (resp.code = "Ok" →
      (∃ m ∈ resp.matchings, ∃ leg ∈ m.legs, ∃ s ∈ leg.steps,
          s.geomType ≠ "LineString") →
      ∃ e, mapmatch_single resp lats lons tss = .error e)
    ∧ ((∀ m ∈ resp.matchings, ∀ leg ∈ m.legs, ∀ s ∈ leg.steps,
          s.geomType = "LineString") →
      mapmatch_single resp lats lons tss ≠ .error .assertGeom) := by
  constructor
  · intro hok hbad
    unfold mapmatch_single
    rw [if_pos hok]
    cases h1 : tpRowsGo lats lons tss resp.tracepoints 0 with
    | error e => exact ⟨e, rfl⟩
    | ok l_tp =>
        rcases @processRoutes_err_of_bad (buildTpIndex resp.tracepoints)
          resp.matchings 0 hbad with ⟨e, he⟩
        rw [he]
        exact ⟨e, rfl⟩
  · intro hline h
    unfold mapmatch_single at h
    by_cases hok : resp.code = "Ok"
    · rw [if_pos hok] at h
      cases h1 : tpRowsGo lats lons tss resp.tracepoints 0 with
      | error e =>
          rw [h1] at h
          have : e = .assertGeom := Except.error.inj h
          rw [this] at h1
          exact tpRowsGo_no_assert h1
      | ok l_tp =>
          rw [h1] at h
          cases h2 : processRoutes (buildTpIndex resp.tracepoints) resp.matchings 0 with
          | error e =>
              rw [h2] at h
              have : e = .assertGeom := Except.error.inj h
              rw [this] at h2
              exact processRoutes_no_assert hline h2
          | ok l_rte => rw [h2] at h; simp at h
    · rw [if_neg hok] at h
      simp at h

/-- Witness for C6: a concrete `"Ok"` response with a `"Point"` step
geometry makes the matcher raise. -/
theorem C6_geometry_type_fatal_witness :
    ∃ e, mapmatch_single badStepResp [0, 1] [10, 11] none = .error e :=
  (C6_geometry_type_fatal badStepResp [0, 1] [10, 11] none).1 (by decide)
    ⟨⟨[⟨[10, 11], [], [⟨"Point", [(10, 0)], (11, 1)⟩]⟩]⟩, by decide,
     ⟨[10, 11], [], [⟨"Point", [(10, 0)], (11, 1)⟩]⟩, by decide,
     ⟨"Point", [(10, 0)], (11, 1)⟩, by decide, by decide⟩

/-! ### Windowing (claims C2, C7, C10) -/

theorem chunkBounds_snd_le {W n k : ℕ} : (chunkBounds W n k).2 ≤ n :=
  min_le_right _ _

theorem chunkBounds_snd_lt {W n k : ℕ} (h : (chunkBounds W n k).2 ≠ n) :
    (chunkBounds W n k).2 = k * (W - 1) + W ∧ k * (W - 1) + W < n := by
  unfold chunkBounds at h
  unfold chunkBounds
  simp only at h
  simp only
  rcases lt_or_ge (k * (W - 1) + W) n with hlt | hge
  · exact ⟨min_eq_left (le_of_lt hlt), hlt⟩
  · exact absurd (min_eq_right hge) h

theorem windowList_get {W n : ℕ} :
    ∀ (fuel k j : ℕ) (p : ℕ × ℕ), (windowList W n fuel k).get? j = some p →
      p = chunkBounds W n (k + j) := by
  intro fuel
  induction fuel with
  | zero => intro k j p h; simp [windowList] at h
  | succ fuel ih =>
      intro k j p h
      rw [windowList] at h
      by_cases hstop : (chunkBounds W n k).2 = n
      · rw [if_pos hstop] at h
        cases j with
        | zero =>
            have : chunkBounds W n k = p := Option.some.inj h
            rw [← this, Nat.add_zero]
        | succ j => simp at h
      · rw [if_neg hstop] at h
        cases j with
        | zero =>
            have : chunkBounds W n k = p := Option.some.inj h
            rw [← this, Nat.add_zero]
        | succ j =>
            rw [List.get?_cons_succ] at h
            rw [ih (k + 1) j p h]
            have : k + 1 + j = k + (j + 1) := by omega
            rw [this]

theorem windowList_stable {W n : ℕ} (hW : 2 ≤ W) :
    ∀ (f k g : ℕ), n ≤ k + 2 + f →
      windowList W n (f + 1 + g) k = windowList W n (f + 1) k := by
  intro f
  induction f with
  | zero =>
      intro k g hk
      have hkle : k ≤ k * (W - 1) := Nat.le_mul_of_pos_right k (by omega)
      have hstop : (chunkBounds W n k).2 = n := by
        unfold chunkBounds
        simp only
        exact min_eq_right (by omega)
      have h1g : 0 + 1 + g = g + 1 := by omega
      rw [h1g]
      rw [windowList, if_pos hstop]
      rw [show (0 + 1 : ℕ) = 1 by omega, windowList, if_pos hstop]
  | succ f ih =>
      intro k g hk
      by_cases hstop : (chunkBounds W n k).2 = n
      · rw [show f + 1 + 1 + g = (f + 1 + g) + 1 by omega]
        rw [windowList, if_pos hstop]
        rw [show f + 1 + 1 = (f + 1) + 1 by omega, windowList, if_pos hstop]
      · rw [show f + 1 + 1 + g = (f + 1 + g) + 1 by omega]
        rw [windowList, if_neg hstop]
        rw [show f + 1 + 1 = (f + 1) + 1 by omega, windowList, if_neg hstop]
        rw [ih (k + 1) g (by omega)]

theorem windowList_decomp {W n : ℕ} (hW : 2 ≤ W) :
    ∀ (f k : ℕ), n ≤ k + 2 + f →
      ∃ l p, windowList W n (f + 1) k = l ++ [p] ∧ p.2 = n ∧ ∀ q ∈ l, q.2 < n := by
  intro f
  induction f with
  | zero =>
      intro k hk
      have hkle : k ≤ k * (W - 1) := Nat.le_mul_of_pos_right k (by omega)
      have hstop : (chunkBounds W n k).2 = n := by
        unfold chunkBounds
        simp only
        exact min_eq_right (by omega)
      refine ⟨[], chunkBounds W n k, ?_, hstop, by simp⟩
      rw [show (0 + 1 : ℕ) = 1 by omega, windowList, if_pos hstop]
      simp
  | succ f ih =>
      intro k hk
      by_cases hstop : (chunkBounds W n k).2 = n
      · refine ⟨[], chunkBounds W n k, ?_, hstop, by simp⟩
        rw [show f + 1 + 1 = (f + 1) + 1 by omega, windowList, if_pos hstop]
        simp
      · rcases ih (k + 1) (by omega) with ⟨l, p, hl, hp, hq⟩
        refine ⟨chunkBounds W n k :: l, p, ?_, hp, ?_⟩
        · rw [show f + 1 + 1 = (f + 1) + 1 by omega, windowList, if_neg hstop, hl]
          simp
        · intro q hq2
          rcases List.mem_cons.1 hq2 with rfl | hq3
          · exact lt_of_le_of_ne chunkBounds_snd_le hstop
          · exact hq q hq3

theorem windowList_overlap {W n : ℕ} (hW : 2 ≤ W) :
    ∀ (fuel k j : ℕ) (p q : ℕ × ℕ),
      (windowList W n fuel k).get? j = some p →
      (windowList W n fuel k).get? (j + 1) = some q →
      q.1 = p.2 - 1 := by
  intro fuel
  induction fuel with
  | zero => intro k j p q hp hq; simp [windowList] at hp
  | succ fuel ih =>
      intro k j p q hp hq
      rw [windowList] at hp hq
      by_cases hstop : (chunkBounds W n k).2 = n
      · rw [if_pos hstop] at hq
        rcases List.get?_eq_some.1 hq with ⟨hlt, _⟩
        simp at hlt
      · rw [if_neg hstop] at hp hq
        cases j with
        | zero =>
            have hp2 : chunkBounds W n k = p := Option.some.inj hp
            rw [List.get?_cons_succ] at hq
            have hq2 := windowList_get fuel (k + 1) 0 q hq
            rcases chunkBounds_snd_lt hstop with ⟨hupper, _⟩
            rw [← hp2, hupper, hq2]
            unfold chunkBounds
            simp only [Nat.add_zero]
            have hmul : (k + 1) * (W - 1) = k * (W - 1) + (W - 1) := Nat.succ_mul k (W - 1)
            omega
        | succ j =>
            rw [List.get?_cons_succ] at hp hq
            exact ih (k + 1) j p q hp hq

theorem windowList_size {W n : ℕ} (hW : 2 ≤ W) (hn : 2 ≤ n) :
    ∀ (fuel k : ℕ), (k = 0 ∨ k * (W - 1) + 1 < n) →
      ∀ p ∈ windowList W n fuel k, p.1 + 2 ≤ p.2 ∧ p.2 ≤ n := by
  intro fuel
  induction fuel with
  | zero => intro k hk p hp; simp [windowList] at hp
  | succ fuel ih =>
      intro k hk p hp
      rw [windowList] at hp
      have hbounds : p = chunkBounds W n k → p.1 + 2 ≤ p.2 ∧ p.2 ≤ n := by
        intro hpb
        have hlow : p.1 = k * (W - 1) := by rw [hpb]; rfl
        have hupp : p.2 = min (k * (W - 1) + W) n := by rw [hpb]; rfl
        constructor
        · rw [hlow, hupp]
          rcases hk with rfl | hklt
          · simp only [Nat.zero_mul]
            omega
          · omega
        · rw [hupp]; exact min_le_right _ _
      by_cases hstop : (chunkBounds W n k).2 = n
      · rw [if_pos hstop] at hp
        exact hbounds (List.mem_singleton.1 hp)
      · rw [if_neg hstop] at hp
        rcases List.mem_cons.1 hp with rfl | htail
        · exact hbounds rfl
        · rcases chunkBounds_snd_lt hstop with ⟨_, hlt⟩
          have hmul : (k + 1) * (W - 1) = k * (W - 1) + (W - 1) := Nat.succ_mul k (W - 1)
          exact ih (k + 1) (Or.inr (by omega)) p htail

/-- Claim C2: window `k` covers exactly the original index range
`[k*(W-1), min(k*(W-1)+W, N))`; each window after the first begins with the
final point of the previous window; concretely, `W=3` over 5 points gives
windows `[0,3)` and `[2,5)`, original index 2 being local index 2 of
window 0 and local index 0 of window 1. -/
theorem C2_window_bounds (W n : ℕ) (hW : 2 ≤ W) :
    (∀ fuel k j p, (windowList W n fuel k).get? j = some p →
        p = (((k + j) * (W - 1)), min ((k + j) * (W - 1) + W) n))
    ∧ (∀ fuel j p q, (windowList W n fuel 0).get? j = some p →
        (windowList W n fuel 0).get? (j + 1) = some q → q.1 = p.2 - 1)
    ∧ windowList 3 5 6 0 = [(0, 3), (2, 5)]
    ∧ pySlice (List.range 5) 0 3 = [0, 1, 2]
    ∧ (pySlice (List.range 5) 0 3).get? 2 = some 2
    ∧ pySlice (List.range 5) 2 5 = [2, 3, 4]
    ∧ (pySlice (List.range 5) 2 5).get? 0 = some 2 := by
  refine ⟨?_, ?_, by decide, by decide, by decide, by decide, by decide⟩
  · intro fuel k j p h
    exact windowList_get fuel k j p h
  · intro fuel j p q hp hq
    exact windowList_overlap hW fuel 0 j p q hp hq

/-- Witness for C2 (instantiating the universally quantified parts at the
concrete `W=3`, `N=5` run). -/
theorem C2_window_bounds_witness :
    ((0, 3) : ℕ × ℕ) = ((0 + 0) * (3 - 1), min ((0 + 0) * (3 - 1) + 3) 5)
    ∧ ((2, 5) : ℕ × ℕ).1 = ((0, 3) : ℕ × ℕ).2 - 1 :=
  ⟨(C2_window_bounds 3 5 (by decide)).1 6 0 0 (0, 3) (by decide),
   (C2_window_bounds 3 5 (by decide)).2.1 6 0 (0, 3) (2, 5) (by decide) (by decide)⟩

/-- Claim C7: for `W ≥ 2` the window iteration terminates — with fuel
`N + 1` the window list is already stable under any extra fuel, it ends at
the first window whose upper bound reaches `N` (all earlier windows have
upper bound `< N`), and the final window may have fewer than `W` points
(for `W = 3`, `N = 4`, the final window `[2,4)` has 2 < 3 points). -/
theorem C7_window_termination (W n : ℕ) (hW : 2 ≤ W) :
    (∀ g, windowList W n (n + 1 + g) 0 = windowList W n (n + 1) 0)
    ∧ (∃ l p, windowList W n (n + 1) 0 = l ++ [p] ∧ p.2 = n ∧ ∀ q ∈ l, q.2 < n)
    ∧ windowList 3 4 5 0 = [(0, 3), (2, 4)] ∧ (4 : ℕ) - 2 < 3 := by
  refine ⟨?_, ?_, by decide, by decide⟩
  · intro g
    exact windowList_stable hW n 0 g (by omega)
  · exact windowList_decomp hW n 0 (by omega)

/-- Witness for C7 at `W = 2`, `n = 3`. -/
theorem C7_window_termination_witness :
    windowList 2 3 (3 + 1 + 5) 0 = windowList 2 3 (3 + 1) 0
    ∧ ∃ l p, windowList 2 3 (3 + 1) 0 = l ++ [p] ∧ p.2 = 3 ∧ ∀ q ∈ l, q.2 < 3 :=
  ⟨(C7_window_termination 2 3 (by decide)).1 5,
   (C7_window_termination 2 3 (by decide)).2.1⟩

/-- Claim C10: for `N ≥ 2` points and window size `W ≥ 2`, every window
slice passed to the single-window matcher contains at least 2 points. -/
theorem C10_no_degenerate_window {W : ℕ} {lats : List ℚ} (hW : 2 ≤ W)
    (hn : 2 ≤ lats.length) :
    ∀ fuel, ∀ p ∈ windowList W lats.length fuel 0,
      2 ≤ (pySlice lats p.1 p.2).length := by
  intro fuel p hp
  rcases windowList_size hW hn fuel 0 (Or.inl rfl) p hp with ⟨h2, hle⟩
  unfold pySlice
  rw [List.length_take, List.length_drop]
  omega

/-- Witness for C10: the first `W=2` window over three points holds 2 points. -/
theorem C10_no_degenerate_window_witness :
    2 ≤ (pySlice exLats 0 2).length :=
  @C10_no_degenerate_window 2 exLats (by decide) (by decide) 4 (0, 2) (by decide)

/-! ### The chunked matcher (claim C3) -/

theorem mapmatch_single_code {resp : MatchResponse} {lats lons : List ℚ}
    {tss : Option (List ℤ)} {otp : Option (List TpRow)} {orte : Option (List RteRow)}
    {code : String} (h : mapmatch_single resp lats lons tss = .ok (otp, orte, code)) :
    code = resp.code := by
  unfold mapmatch_single at h
  by_cases hc : resp.code = "Ok"
  · rw [if_pos hc] at h
    cases h1 : tpRowsGo lats lons tss resp.tracepoints 0 with
    | error e => rw [h1] at h; exact absurd h (by simp)
    | ok l_tp =>
        rw [h1] at h
        cases h2 : processRoutes (buildTpIndex resp.tracepoints) resp.matchings 0 with
        | error e => rw [h2] at h; exact absurd h (by simp)
        | ok l_rte =>
            rw [h2] at h
            have h3 := congrArg (fun x => x.2.2) (Except.ok.inj h)
            rw [hc]
            exact h3.symm
  · rw [if_neg hc] at h
    exact (congrArg (fun x => x.2.2) (Except.ok.inj h)).symm

theorem mapmatch_single_fail {resp : MatchResponse} {lats lons : List ℚ}
    {tss : Option (List ℤ)} (hc : resp.code ≠ "Ok") :
    mapmatch_single resp lats lons tss = .ok (none, none, resp.code) := by
  unfold mapmatch_single
  rw [if_neg hc]

theorem chunkContrib_ok {k : ℕ} {code : String} {otp : Option (List TpRow)}
    {orte : Option (List RteRow)}
    {tk : List (List (ℕ × TpRow))} {rk : List (List (ℕ × RteRow))}
    (h : chunkContrib k code otp orte = .ok (tk, rk)) :
    (code = "Ok" ∧ ∃ t r, otp = some t ∧ orte = some r
      ∧ tk = [t.map (fun row => (k, row))] ∧ rk = [r.map (fun row => (k, row))])
    ∨ (code ≠ "Ok" ∧ tk = [] ∧ rk = []) := by
  unfold chunkContrib at h
  by_cases hc : code = "Ok"
  · rw [if_pos hc] at h
    cases otp with
    | none => exact absurd h (by simp)
    | some t =>
        cases orte with
        | none => exact absurd h (by simp)
        | some r =>
            have h2 := Except.ok.inj h
            exact Or.inl ⟨hc, t, r, rfl, rfl,
              (congrArg (fun x => x.1) h2).symm, (congrArg (fun x => x.2) h2).symm⟩
  · rw [if_neg hc] at h
    have h2 := Except.ok.inj h
    exact Or.inr ⟨hc, (congrArg (fun x => x.1) h2).symm,
      (congrArg (fun x => x.2) h2).symm⟩

theorem chunkContrib_fail {k : ℕ} {code : String} {otp : Option (List TpRow)}
    {orte : Option (List RteRow)} (hc : code ≠ "Ok") :
    chunkContrib k code otp orte = .ok ([], []) := by
  unfold chunkContrib
  rw [if_neg hc]

theorem chunkGo_codes {oracle : ℕ → MatchResponse} {lats lons : List ℚ}
    {tss : Option (List ℤ)} {W : ℕ} :
    ∀ (fuel k : ℕ) {ltp : List (List (ℕ × TpRow))} {lrte : List (List (ℕ × RteRow))}
      {cs : List String},
      chunkGo oracle lats lons tss W fuel k = .ok (ltp, lrte, cs) →
      cs.length = (windowList W lats.length fuel k).length
      ∧ ∀ j, j < cs.length → cs.get? j = some (oracle (k + j)).code := by
  intro fuel
  induction fuel with
  | zero =>
      intro k ltp lrte cs h
      rw [chunkGo] at h
      have h2 := congrArg (fun x => x.2.2) (Except.ok.inj h)
      simp only at h2
      rw [← h2]
      exact ⟨by simp [windowList], by intro j hj; simp at hj⟩
  | succ fuel ih =>
      intro k ltp lrte cs h
      rw [chunkGo] at h
      cases hs : mapmatch_single (oracle k)
          (pySlice lats (chunkBounds W lats.length k).1 (chunkBounds W lats.length k).2)
          (pySlice lons (chunkBounds W lats.length k).1 (chunkBounds W lats.length k).2)
          (tss.map (fun t => pySlice t (chunkBounds W lats.length k).1
            (chunkBounds W lats.length k).2)) with
      | error e => rw [hs] at h; exact absurd h (by simp)
      | ok trip =>
          rcases trip with ⟨otp, orte, code⟩
          rw [hs] at h
          dsimp only at h
          have hcode : code = (oracle k).code := mapmatch_single_code hs
          cases hc : chunkContrib k code otp orte with
          | error e => rw [hc] at h; exact absurd h (by simp)
          | ok pair =>
              rcases pair with ⟨tk, rk⟩
              rw [hc] at h
              dsimp only at h
              by_cases hstop : (chunkBounds W lats.length k).2 = lats.length
              · rw [if_pos hstop] at h
                have h2 := congrArg (fun x => x.2.2) (Except.ok.inj h)
                simp only at h2
                rw [← h2]
                refine ⟨by rw [windowList, if_pos hstop]; rfl, ?_⟩
                intro j hj
                simp only [List.length_singleton] at hj
                have hj0 : j = 0 := by omega
                rw [hj0]
                simp [hcode]
              · rw [if_neg hstop] at h
                cases hrec : chunkGo oracle lats lons tss W fuel (k + 1) with
                | error e => rw [hrec] at h; exact absurd h (by simp)
                | ok trip2 =>
                    rcases trip2 with ⟨ts2, rs2, cs2⟩
                    rw [hrec] at h
                    have h2 := congrArg (fun x => x.2.2) (Except.ok.inj h)
                    simp only at h2
                    rw [← h2]
                    rcases ih (k + 1) hrec with ⟨hlen, hget⟩
                    refine ⟨?_, ?_⟩
                    · rw [windowList, if_neg hstop]
                      simp [hlen]
                    · intro j hj
                      cases j with
                      | zero => simp [hcode]
                      | succ j =>
                          rw [List.get?_cons_succ]
                          simp only [List.length_cons] at hj
                          rw [hget j (by omega)]
                          have : k + 1 + j = k + (j + 1) := by omega
                          rw [this]

theorem chunkGo_tp_tags {oracle : ℕ → MatchResponse} {lats lons : List ℚ}
    {tss : Option (List ℤ)} {W : ℕ} :
    ∀ (fuel k : ℕ) {ltp : List (List (ℕ × TpRow))} {lrte : List (List (ℕ × RteRow))}
      {cs : List String},
      chunkGo oracle lats lons tss W fuel k = .ok (ltp, lrte, cs) →
      (∀ pr ∈ ltp.flatten, ∃ j, pr.1 = k + j ∧ cs.get? j = some "Ok")
      ∧ (∀ pr ∈ lrte.flatten, ∃ j, pr.1 = k + j ∧ cs.get? j = some "Ok") := by
  intro fuel
  induction fuel with
  | zero =>
      intro k ltp lrte cs h
      rw [chunkGo] at h
      have h2 := Except.ok.inj h
      have htp : ltp = [] := (congrArg (fun x => x.1) h2).symm
      have hrte : lrte = [] := (congrArg (fun x => x.2.1) h2).symm
      rw [htp, hrte]
      constructor <;> intro pr hpr <;> simp at hpr
  | succ fuel ih =>
      intro k ltp lrte cs h
      rw [chunkGo] at h
      cases hs : mapmatch_single (oracle k)
          (pySlice lats (chunkBounds W lats.length k).1 (chunkBounds W lats.length k).2)
          (pySlice lons (chunkBounds W lats.length k).1 (chunkBounds W lats.length k).2)
          (tss.map (fun t => pySlice t (chunkBounds W lats.length k).1
            (chunkBounds W lats.length k).2)) with
      | error e => rw [hs] at h; exact absurd h (by simp)
      | ok trip =>
          rcases trip with ⟨otp, orte, code⟩
          rw [hs] at h
          dsimp only at h
          cases hc : chunkContrib k code otp orte with
          | error e => rw [hc] at h; exact absurd h (by simp)
          | ok pair =>
              rcases pair with ⟨tk, rk⟩
              rw [hc] at h
              dsimp only at h
              have htag : (∀ pr ∈ tk.flatten, pr.1 = k ∧ code = "Ok")
                  ∧ ∀ pr ∈ rk.flatten, pr.1 = k ∧ code = "Ok" := by
                rcases chunkContrib_ok hc with
                  ⟨hok, t, r, _, _, htk, hrk⟩ | ⟨_, htk, hrk⟩
                · rw [htk, hrk]
                  constructor <;> intro pr hpr <;>
                    simp only [List.flatten, List.append_nil] at hpr
                  · rcases List.mem_map.1 (by simpa using hpr) with ⟨row, _, hrow⟩
                    exact ⟨by rw [← hrow], hok⟩
                  · rcases List.mem_map.1 (by simpa using hpr) with ⟨row, _, hrow⟩
                    exact ⟨by rw [← hrow], hok⟩
                · rw [htk, hrk]
                  constructor <;> intro pr hpr <;> simp at hpr
              by_cases hstop : (chunkBounds W lats.length k).2 = lats.length
              · rw [if_pos hstop] at h
                have h2 := Except.ok.inj h
                have htp : ltp = tk := (congrArg (fun x => x.1) h2).symm
                have hrte : lrte = rk := (congrArg (fun x => x.2.1) h2).symm
                have hcs : cs = [code] := (congrArg (fun x => x.2.2) h2).symm
                rw [htp, hrte, hcs]
                constructor <;> intro pr hpr
                · rcases htag.1 pr hpr with ⟨hk, hok⟩
                  exact ⟨0, by omega, by simp [hok]⟩
                · rcases htag.2 pr hpr with ⟨hk, hok⟩
                  exact ⟨0, by omega, by simp [hok]⟩
              · rw [if_neg hstop] at h
                cases hrec : chunkGo oracle lats lons tss W fuel (k + 1) with
                | error e => rw [hrec] at h; exact absurd h (by simp)
                | ok trip2 =>
                    rcases trip2 with ⟨ts2, rs2, cs2⟩
                    rw [hrec] at h
                    have h2 := Except.ok.inj h
                    have htp : ltp = tk ++ ts2 := (congrArg (fun x => x.1) h2).symm
                    have hrte : lrte = rk ++ rs2 := (congrArg (fun x => x.2.1) h2).symm
                    have hcs : cs = code :: cs2 := (congrArg (fun x => x.2.2) h2).symm
                    rcases ih (k + 1) hrec with ⟨ihtp, ihrte⟩
                    rw [htp, hrte, hcs]
                    constructor <;> intro pr hpr <;>
                      rw [List.flatten_append] at hpr
                    · rcases List.mem_append.1 hpr with hl | hr
                      · rcases htag.1 pr hl with ⟨hk, hok⟩
                        exact ⟨0, by omega, by simp [hok]⟩
                      · rcases ihtp pr hr with ⟨j, hj1, hj2⟩
                        exact ⟨j + 1, by omega, by rw [List.get?_cons_succ]; exact hj2⟩
                    · rcases List.mem_append.1 hpr with hl | hr
                      · rcases htag.2 pr hl with ⟨hk, hok⟩
                        exact ⟨0, by omega, by simp [hok]⟩
                      · rcases ihrte pr hr with ⟨j, hj1, hj2⟩
                        exact ⟨j + 1, by omega, by rw [List.get?_cons_succ]; exact hj2⟩

theorem chunkGo_allfail {oracle : ℕ → MatchResponse} {lats lons : List ℚ}
    {tss : Option (List ℤ)} {W : ℕ} (hfail : ∀ k, (oracle k).code ≠ "Ok") :
    ∀ (fuel k : ℕ), ∃ cs, chunkGo oracle lats lons tss W fuel k = .ok ([], [], cs)
      ∧ cs.length = (windowList W lats.length fuel k).length := by
  intro fuel
  induction fuel with
  | zero => intro k; exact ⟨[], rfl, by simp [windowList]⟩
  | succ fuel ih =>
      intro k
      have hs := @mapmatch_single_fail (oracle k)
        (pySlice lats (chunkBounds W lats.length k).1 (chunkBounds W lats.length k).2)
        (pySlice lons (chunkBounds W lats.length k).1 (chunkBounds W lats.length k).2)
        (tss.map (fun t => pySlice t (chunkBounds W lats.length k).1
          (chunkBounds W lats.length k).2)) (hfail k)
      by_cases hstop : (chunkBounds W lats.length k).2 = lats.length
      · refine ⟨[(oracle k).code], ?_, ?_⟩
        · rw [chunkGo, hs]
          dsimp only
          rw [chunkContrib_fail (hfail k)]
          dsimp only
          rw [if_pos hstop]
        · rw [windowList, if_pos hstop]
          rfl
      · rcases ih (k + 1) with ⟨cs2, hrec, hlen⟩
        refine ⟨(oracle k).code :: cs2, ?_, ?_⟩
        · rw [chunkGo, hs]
          dsimp only
          rw [chunkContrib_fail (hfail k)]
          dsimp only
          rw [if_neg hstop, hrec]
          simp
        · rw [windowList, if_neg hstop]
          simp [hlen]

/-- Claim C3: a window whose status is not `"Ok"` contributes no tracepoint
rows and no route rows while its status code is still recorded in order;
processing continues through all windows (one status per window attempted);
and when every window fails, both outputs are absent and no error is
raised, the status list length still equalling the number of windows
attempted. -/
theorem C3_failed_windows (oracle : ℕ → MatchResponse) (lats lons : List ℚ)
    (tss : Option (List ℤ)) (W : ℕ) (hW : 2 ≤ W) :
    (∀ otp orte cs, mapmatch_custom oracle lats lons tss W = .ok (otp, orte, cs) →
        cs.length = (windowList W lats.length (lats.length + 1) 0).length
        ∧ (∀ j, j < cs.length → cs.get? j = some (oracle j).code)
        ∧ (∀ rows, otp = some rows → ∀ pr ∈ rows, cs.get? pr.1 = some "Ok")
        ∧ (∀ rows, orte = some rows → ∀ pr ∈ rows, cs.get? pr.1 = some "Ok"))
    ∧ ((∀ k, (oracle k).code ≠ "Ok") →
        ∃ cs, mapmatch_custom oracle lats lons tss W = .ok (none, none, cs)
          ∧ cs.length = (windowList W lats.length (lats.length + 1) 0).length) := by
  constructor
  · intro otp orte cs h
    unfold mapmatch_custom at h
    cases hg : chunkGo oracle lats lons tss W (lats.length + 1) 0 with
    | error e => rw [hg] at h; exact absurd h (by simp)
    | ok trip =>
        rcases trip with ⟨ltp, lrte, cs0⟩
        rw [hg] at h
        have h2 := Except.ok.inj h
        have hotp : otp = if 0 < ltp.length then some ltp.flatten else none :=
          (congrArg (fun x => x.1) h2).symm
        have horte : orte = if 0 < lrte.length then some lrte.flatten else none :=
          (congrArg (fun x => x.2.1) h2).symm
        have hcs : cs = cs0 := (congrArg (fun x => x.2.2) h2).symm
        rcases chunkGo_codes (lats.length + 1) 0 hg with ⟨hlen, hget⟩
        rcases chunkGo_tp_tags (lats.length + 1) 0 hg with ⟨htp, hrte⟩
        subst hcs
        refine ⟨hlen, fun j hj => by simpa using hget j hj, ?_, ?_⟩
        · intro rows hrows pr hpr
          rw [hrows] at hotp
          by_cases hl : 0 < ltp.length
          · rw [if_pos hl] at hotp
            have : rows = ltp.flatten := Option.some.inj hotp
            rw [this] at hpr
            rcases htp pr hpr with ⟨j, hj1, hj2⟩
            rw [hj1]
            simpa using hj2
          · rw [if_neg hl] at hotp
            exact absurd hotp.symm (by simp)
        · intro rows hrows pr hpr
          rw [hrows] at horte
          by_cases hl : 0 < lrte.length
          · rw [if_pos hl] at horte
            have : rows = lrte.flatten := Option.some.inj horte
            rw [this] at hpr
            rcases hrte pr hpr with ⟨j, hj1, hj2⟩
            rw [hj1]
            simpa using hj2
          · rw [if_neg hl] at horte
            exact absurd horte.symm (by simp)
  · intro hfail
    rcases chunkGo_allfail hfail (lats.length + 1) 0 with ⟨cs, hg, hlen⟩
    refine ⟨cs, ?_, hlen⟩
    unfold mapmatch_custom
    rw [hg]
    simp

/-- Witness for C3: two `W = 2` windows over three points, both failing with
`"NoSegment"`: outputs absent, two status codes, no error raised. -/
theorem C3_failed_windows_witness :
    ∃ cs, mapmatch_custom exOracleFail [0, 1, 2] [10, 11, 12] none 2
        = .ok (none, none, cs)
      ∧ cs.length = (windowList 2 ([0, 1, 2] : List ℚ).length
          (([0, 1, 2] : List ℚ).length + 1) 0).length :=
  (C3_failed_windows exOracleFail [0, 1, 2] [10, 11, 12] none 2 (by decide)).2
    (fun k => by simp [exOracleFail])

/-! ### The request formatter (claim C9) -/

theorem flatten_dropLast_eq_pyJoin (l : List (List Char)) :
    ((l.map (fun s => s ++ [';'])).flatten).dropLast = pyJoin [';'] l := by
  induction l with
  | nil => simp [pyJoin]
  | cons a rest ih =>
      cases rest with
      | nil => simp [pyJoin]
      | cons b t =>
          rw [List.map_cons, List.flatten_cons, List.dropLast_append]
          have hne : (((b :: t).map (fun s => s ++ [';'])).flatten).isEmpty = false := by
            rw [List.map_cons, List.flatten_cons]
            simp
          rw [hne]
          simp only [Bool.false_eq_true, if_false]
          rw [ih, pyJoin]

theorem formatted_lat_lon_eq (rep : ℚ → List Char) (lats lons : List ℚ) :
    formatted_lat_lon rep lats lons
      = pyJoin [';'] ((lats.zip lons).map (fun p => rep p.2 ++ [','] ++ rep p.1)) := by
  unfold formatted_lat_lon
  rw [show (fun p : ℚ × ℚ => rep p.2 ++ [','] ++ rep p.1 ++ [';'])
      = (fun s => s ++ [';']) ∘ (fun p : ℚ × ℚ => rep p.2 ++ [','] ++ rep p.1) from rfl]
  rw [← List.map_map]
  exact flatten_dropLast_eq_pyJoin _

/-- Claim C9: the request path encodes the points as ordered
`"longitude,latitude"` groups joined by semicolons with no trailing
delimiter, and the query contains the semicolon-joined timestamps,
integer-truncated bearings and integer-truncated radii exactly when the
corresponding optional input is supplied. -/
theorem C9_request_format (rep : ℚ → List Char) (osrm_server : List Char)
    (latitudes longitudes : List ℚ) (timestamps : Option (List ℤ))
    (bearings radiuses : Option (List ℚ))
    (steps geometries overview annotationsOpt version : List Char) :
    matchRequest rep osrm_server latitudes longitudes timestamps bearings radiuses
        steps geometries overview annotationsOpt version
      = osrm_server ++ "/match/".data ++ version ++ "/someprofile/".data
        ++ pyJoin [';'] ((latitudes.zip longitudes).map
            (fun p => rep p.2 ++ [','] ++ rep p.1))
        ++ "?geometries=".data ++ geometries ++ "&steps=".data ++ steps
        ++ "&overview=".data ++ overview ++ "&annotations=".data ++ annotationsOpt
        ++ (match timestamps with
            | none => []
            | some ts => "&timestamps=".data ++ pyJoin [';'] (ts.map intRepr))
        ++ (match bearings with
            | none => []
            | some bs => "&bearings=".data
                ++ pyJoin [';'] (bs.map (fun b => intRepr (intTrunc b))))
        ++ (match radiuses with
            | none => []
            | some rs => "&radiuses=".data
                ++ pyJoin [';'] (rs.map (fun r => intRepr (intTrunc r)))) := by
  cases timestamps <;> cases bearings <;> cases radiuses <;>
    simp [matchRequest, formatted_lat_lon_eq, List.append_assoc]

end OsrmUtils
